import Mathlib

/-!
Verification development for the `asr-evaluation` core
(`src/asr_evaluation/asr_evaluation.py`).

The program aligns pairs of reference/hypothesis token sequences, folds
per-line counts into corpus totals, and derives WER / WRR / SER.  This file
shallowly embeds the core:

* Python's global mutable tables (`lengths`, `error_rates`, `wer_bins`,
  `insertion_table`, `deletion_table`, `substitution_table`) become an
  explicit `State` record threaded through the functions.
* Python's global configuration flags (set by `set_global_variables`) become
  a `Config` record.
* Fallible behaviour (`exit(-1)` on ID mismatch, `IndexError` on unguarded
  indexing, `AssertionError` in `get_match_count`) becomes
  `Except ProcErr _`.
* Python float rates become exact rationals (`ℚ`); the per-line error rate,
  which can be `float("inf")`, and the `float("nan")` sentinel of `mean`
  become the extended type `XRat`.
* The external `edit_distance.SequenceMatcher` capability (imported by the
  source, not part of this repository) is modelled from the spec; see
  `alignment` and `SequenceMatcher.make` below.
-/

namespace AsrEval

/-- Opcode tags of the aligner: `equal`, `insert`, `delete`, `replace`. -/
inductive Tag where
  | equal
  | insert
  | delete
  | replace
deriving DecidableEq, BEq, Repr

/-- One alignment operation `(tag, i1, i2, j1, j2)`: half-open ranges
`[i1, i2)` into the reference sequence and `[j1, j2)` into the hypothesis
sequence, as in the tuples returned by `sm.get_opcodes()`. -/
structure Opcode where
  tag : Tag
  i1 : Nat
  i2 : Nat
  j1 : Nat
  j2 : Nat
deriving DecidableEq, Repr

/-- Extended rational: a finite value, `float("inf")` (the per-line error
rate of an empty reference), or the `float("nan")` sentinel returned by
`mean` on an empty sequence. -/
inductive XRat where
  | fin (q : ℚ)
  | inf
  | nan
deriving DecidableEq, Repr

/-- Addition on `XRat`, mirroring IEEE float addition on the values that
occur here (nonnegative finite values, `inf`, `nan`): `nan` propagates and
`inf` absorbs.  (`-inf` never occurs, so `inf + inf = inf` is exact.) -/
def XRat.add : XRat → XRat → XRat
  | .nan, _ => .nan
  | _, .nan => .nan
  | .inf, _ => .inf
  | _, .inf => .inf
  | .fin a, .fin b => .fin (a + b)

/-- Division of an `XRat` by a (positive, in all uses) natural number,
mirroring float division: `nan` propagates, `inf / n = inf`. -/
def XRat.divNat : XRat → Nat → XRat
  | .nan, _ => .nan
  | .inf, _ => .inf
  | .fin a, n => .fin (a / (n : ℚ))

/-- Sum of a list of `XRat`, as Python's `sum` starting from `0`. -/
def xsum (seq : List XRat) : XRat :=
  seq.foldl XRat.add (.fin 0)

/-- The `wer_bins` table: Python's `defaultdict(list)` keyed by reference
length, modelled as an insertion-ordered association list (Python dicts
preserve insertion order). -/
abbrev Bins := List (Nat × List XRat)

/-- Append `v` to the list stored at key `k`, creating the entry at the end
if absent — exactly `wer_bins[k].append(v)` on a `defaultdict(list)`. -/
def binsAppend (bins : Bins) (k : Nat) (v : XRat) : Bins :=
  match bins with
  | [] => [(k, [v])]
  | (k', vs) :: rest =>
      if k' = k then (k', vs ++ [v]) :: rest else (k', vs) :: binsAppend rest k v

/-- The process-wide mutable state of the source module: the lists
`lengths` and `error_rates`, the `wer_bins` table, and the three confusion
tables (each a `defaultdict(int)`, modelled as a total count function). -/
structure State where
  lengths : List Nat
  error_rates : List XRat
  wer_bins : Bins
  insertion_table : String → Nat
  deletion_table : String → Nat
  substitution_table : String × String → Nat

/-- Fresh state, as at module import: empty lists/tables, all counts 0. -/
def initState : State where
  lengths := []
  error_rates := []
  wer_bins := []
  insertion_table := fun _ => 0
  deletion_table := fun _ => 0
  substitution_table := fun _ => 0

/-- Configuration: the globals set from argparse by `set_global_variables`.
`print_instances_p` / `print_errors_p` only drive terminal output (out of
scope) and `print_wer_vs_length` (the global `wer_vs_length_p`) gates only
the final report printing in `main`, not any statistics collection. -/
structure Config where
  case_insensitive : Bool
  remove_empty_refs : Bool
  files_head_ids : Bool
  files_tail_ids : Bool
  confusions : Bool
  print_wer_vs_length : Bool
deriving DecidableEq, Repr

/-- Abnormal termination: `exit(-1)` on an ID mismatch, a Python
`IndexError` from unguarded indexing, or the `AssertionError` of
`get_match_count`. -/
inductive ProcErr where
  | idMismatch
  | indexFault
  | assertFault
deriving DecidableEq, Repr

/-- Helper for `tokenize`: walk the characters, accumulating the current
(reversed) word; whitespace flushes it.  Mirrors Python `str.split()` with
no argument: split on runs of whitespace, no empty tokens. -/
def tokenizeAux : List Char → List Char → List String
  | cur, [] => if cur = [] then [] else [String.mk cur.reverse]
  | cur, c :: cs =>
      if c.isWhitespace then
        if cur = [] then tokenizeAux [] cs
        else String.mk cur.reverse :: tokenizeAux [] cs
      else tokenizeAux (c :: cur) cs

/-- Whitespace tokenization, `ref_line.split()` in the source. -/
def tokenize (s : String) : List String :=
  tokenizeAux [] s.data

/-- Transcribes `remove_head_id`: read `ref[0]` and `hyp[0]` (an empty list
raises `IndexError`), `exit(-1)` if they differ, else drop both heads. -/
def remove_head_id (ref hyp : List String) :
    Except ProcErr (List String × List String) :=
  match ref with
  | [] => .error .indexFault
  | ref_id :: ref' =>
      match hyp with
      | [] => .error .indexFault
      | hyp_id :: hyp' =>
          if ref_id ≠ hyp_id then .error .idMismatch
          else .ok (ref', hyp')

/-- Transcribes `remove_tail_id`: read `ref[-1]` and `hyp[-1]` (an empty
list raises `IndexError`), `exit(-1)` if they differ, else drop both
tails (`ref[:-1]`, `hyp[:-1]`). -/
def remove_tail_id (ref hyp : List String) :
    Except ProcErr (List String × List String) :=
  match ref.getLast? with
  | none => .error .indexFault
  | some ref_id =>
      match hyp.getLast? with
      | none => .error .indexFault
      | some hyp_id =>
          if ref_id ≠ hyp_id then .error .idMismatch
          else .ok (ref.dropLast, hyp.dropLast)

/-- Steps 1–3 of `process_line_pair` (lines 143–158 of the source):
tokenize, strip the ID token in head/tail mode (the `id_ = ref[0]` /
`ref[-1]` fetch on line 150/153 happens first and can itself raise
`IndexError`), then fold case.  Returns the sequences handed to the
aligner. -/
def strippedSeqs (cfg : Config) (ref_line hyp_line : String) :
    Except ProcErr (List String × List String) :=
  let ref0 := tokenize ref_line
  let hyp0 := tokenize hyp_line
  let stripped : Except ProcErr (List String × List String) :=
    if cfg.files_head_ids then
      match ref0 with
      | [] => .error .indexFault
      | _ :: _ => remove_head_id ref0 hyp0
    else if cfg.files_tail_ids then
      match ref0.getLast? with
      | none => .error .indexFault
      | some _ => remove_tail_id ref0 hyp0
    else .ok (ref0, hyp0)
  match stripped with
  | .error e => .error e
  | .ok (ref1, hyp1) =>
      if cfg.case_insensitive then
        .ok (ref1.map String.toLower, hyp1.map String.toLower)
      else .ok (ref1, hyp1)

/-- Modelled from the spec: the external SequenceAligner capability
(`edit_distance.SequenceMatcher`, imported by the source but not part of
this repository).  `alignAux fuel i j a b` returns the minimum edit
distance between `a` and `b` together with an ordered opcode list whose
ranges start at absolute indices `i` (reference) and `j` (hypothesis).
`fuel ≥ a.length + b.length` makes the structural recursion total; the
fuel-exhausted branch is unreachable at the fuel `alignment` supplies. -/
def alignAux : Nat → Nat → Nat → List String → List String → Nat × List Opcode
  | 0, _, _, _, _ => (0, [])
  | _ + 1, _, _, [], [] => (0, [])
  | fuel + 1, i, j, [], _ :: bs =>
      let r := alignAux fuel i (j + 1) [] bs
      (r.1 + 1, ⟨.insert, i, i, j, j + 1⟩ :: r.2)
  | fuel + 1, i, j, _ :: as, [] =>
      let r := alignAux fuel (i + 1) j as []
      (r.1 + 1, ⟨.delete, i, i + 1, j, j⟩ :: r.2)
  | fuel + 1, i, j, a :: as, b :: bs =>
      if a = b then
        let r := alignAux fuel (i + 1) (j + 1) as bs
        (r.1, ⟨.equal, i, i + 1, j, j + 1⟩ :: r.2)
      else
        let rSub := alignAux fuel (i + 1) (j + 1) as bs
        let rDel := alignAux fuel (i + 1) j as (b :: bs)
        let rIns := alignAux fuel i (j + 1) (a :: as) bs
        if rSub.1 ≤ rDel.1 ∧ rSub.1 ≤ rIns.1 then
          (rSub.1 + 1, ⟨.replace, i, i + 1, j, j + 1⟩ :: rSub.2)
        else if rDel.1 ≤ rIns.1 then
          (rDel.1 + 1, ⟨.delete, i, i + 1, j, j⟩ :: rDel.2)
        else
          (rIns.1 + 1, ⟨.insert, i, i, j, j + 1⟩ :: rIns.2)

/-- Modelled from the spec: the opcode list of a minimum-edit-distance
alignment of `a` (reference) and `b` (hypothesis). -/
def alignment (a b : List String) : List Opcode :=
  (alignAux (a.length + b.length) 0 0 a b).2

/-- The aligner object as the core consumes it: opcodes, the aligner's own
reported match count (`sm.matches()`), and its matching blocks
(`sm.get_matching_blocks()`, triples `(i, j, size)`). -/
structure SequenceMatcher where
  opcodes : List Opcode
  matchesReported : Nat
  matching_blocks : List (Nat × Nat × Nat)

/-- Total number of reference tokens covered by `equal` opcodes. -/
def countEqualTokens (ops : List Opcode) : Nat :=
  ((ops.filter (fun op => decide (op.tag = Tag.equal))).map (fun op => op.i2 - op.i1)).sum

/-- Modelled from the spec: `SequenceMatcher(a=ref, b=hyp)`.  Per the spec
the aligner reports the total count of tokens covered by `equal` ops as its
match count, and its matching blocks are exactly the `equal` ops with their
sizes. -/
def SequenceMatcher.make (a b : List String) : SequenceMatcher :=
  let ops := alignment a b
  { opcodes := ops
    matchesReported := countEqualTokens ops
    matching_blocks :=
      ops.filterMap (fun op =>
        if op.tag = Tag.equal then some (op.i1, op.j1, op.i2 - op.i1) else none) }

/-- The module-level `error_codes` list. -/
def error_codes : List Tag := [.replace, .delete, .insert]

/-- Transcribes `get_error_count`: filter opcodes whose tag is in
`error_codes`, take `max(i2 - i1, j2 - j1)` of each, and `reduce` with
`+` from `0`. -/
def get_error_count (sm : SequenceMatcher) : Nat :=
  let opcodes := sm.opcodes
  let errors := opcodes.filter (fun x => error_codes.contains x.tag)
  let error_lengths := errors.map (fun x => max (x.i2 - x.i1) (x.j2 - x.j1))
  error_lengths.foldl (· + ·) 0

/-- Transcribes `get_match_count`: compare `sm.matches()` with the sum of
matching-block sizes; the `assert` (returning `none` here) fires if they
differ, otherwise return the count. -/
def get_match_count (sm : SequenceMatcher) : Option Nat :=
  let matches1 := sm.matchesReported
  let matches2 := (sm.matching_blocks.map (fun x => x.2.2)).foldl (· + ·) 0
  if matches1 = matches2 then some matches1 else none

/-- Python slice `l[i:j]` for natural `i ≤ j` (clamping, never raising). -/
def listSlice (l : List String) (i j : Nat) : List String :=
  (l.drop i).take (j - i)

/-- One `defaultdict(int)` increment: `table[word] += 1`. -/
def bumpTable (t : String → Nat) (word : String) : String → Nat :=
  fun x => if x = word then t x + 1 else t x

/-- One `defaultdict(int)` increment on a pair key. -/
def bumpPair (t : String × String → Nat) (key : String × String) :
    String × String → Nat :=
  fun x => if x = key then t x + 1 else t x

/-- The loop body of `track_confusions` for one opcode: `insert` bumps
`insertion_table[seq2[i]]` for `i in range(j1, j2)`, `delete` bumps
`deletion_table[seq1[i]]` for `i in range(i1, i2)`, `replace` bumps
`substitution_table[(w1, w2)]` for the cross product of the slices
`seq1[i1:i2]` and `seq2[j1:j2]`.  (Python indexing raises out of range;
`getD` with a default stands in — all callers pass in-range opcodes.) -/
def confStep (seq1 seq2 : List String) (st : State) (op : Opcode) : State :=
  match op.tag with
  | .insert =>
      { st with insertion_table :=
          ((List.range' op.j1 (op.j2 - op.j1)).map
            (fun i => seq2.getD i "")).foldl bumpTable st.insertion_table }
  | .delete =>
      { st with deletion_table :=
          ((List.range' op.i1 (op.i2 - op.i1)).map
            (fun i => seq1.getD i "")).foldl bumpTable st.deletion_table }
  | .replace =>
      { st with substitution_table :=
          (listSlice seq1 op.i1 op.i2).foldl (fun tab w1 =>
            (listSlice seq2 op.j1 op.j2).foldl (fun tab w2 =>
              bumpPair tab (w1, w2)) tab) st.substitution_table }
  | .equal => st

/-- Transcribes `track_confusions`: fold `confStep` over `sm.get_opcodes()`. -/
def track_confusions (sm : SequenceMatcher) (seq1 seq2 : List String)
    (st : State) : State :=
  sm.opcodes.foldl (confStep seq1 seq2) st

/-- State updates of a counted line (source lines 169–185): confusion
tracking when `confusions` is set, then the unconditional appends to
`lengths`, `error_rates` and `wer_bins` with
`error_rate = errors / len(ref)` if `len(ref) > 0` else `float("inf")`. -/
def postState (cfg : Config) (st : State) (ref hyp : List String) : State :=
  let sm := SequenceMatcher.make ref hyp
  let errors := get_error_count sm
  let st1 := if cfg.confusions then track_confusions sm ref hyp st else st
  let error_rate : XRat :=
    if 0 < ref.length then .fin ((errors : ℚ) / (ref.length : ℚ)) else .inf
  { st1 with
    lengths := st1.lengths ++ [ref.length]
    error_rates := st1.error_rates ++ [error_rate]
    wer_bins := binsAppend st1.wer_bins ref.length error_rate }

/-- Transcribes `process_line_pair` (printing elided — it touches no
statistics).  Returns the updated state plus the 4-tuple
`(processed_p, ref_length, matches, errors)`. -/
def process_line_pair (cfg : Config) (st : State) (ref_line hyp_line : String) :
    Except ProcErr (State × Bool × Nat × Nat × Nat) :=
  match strippedSeqs cfg ref_line hyp_line with
  | .error e => .error e
  | .ok (ref, hyp) =>
      if cfg.remove_empty_refs && ref.isEmpty then
        .ok (st, false, 0, 0, 0)
      else
        let sm := SequenceMatcher.make ref hyp
        let errors := get_error_count sm
        match get_match_count sm with
        | none => .error .assertFault
        | some matchedCount =>
            .ok (postState cfg st ref hyp, true, ref.length, matchedCount, errors)

/-- The running totals of the `evaluate` loop. -/
structure Totals where
  line_count : Nat
  ref_token_count : Nat
  match_count : Nat
  error_count : Nat
  sent_error_count : Nat
deriving DecidableEq, Repr

/-- All-zero totals, as at the top of `evaluate`. -/
def initTotals : Totals := ⟨0, 0, 0, 0, 0⟩

/-- One iteration of the `evaluate` loop body (lines 90–101). -/
def evalStep (cfg : Config) (acc : State × Totals) (pair : String × String) :
    Except ProcErr (State × Totals) :=
  match process_line_pair cfg acc.1 pair.1 pair.2 with
  | .error e => .error e
  | .ok (st', processed_p, ref_length, matchedCount, errors) =>
      if processed_p then
        .ok (st',
          { line_count := acc.2.line_count + 1
            ref_token_count := acc.2.ref_token_count + ref_length
            match_count := acc.2.match_count + matchedCount
            error_count := acc.2.error_count + errors
            sent_error_count :=
              if errors ≠ 0 then acc.2.sent_error_count + 1
              else acc.2.sent_error_count })
      else .ok (st', acc.2)

/-- The `evaluate` loop over the zipped line pairs. -/
def evalLoop (cfg : Config) (acc : State × Totals) :
    List (String × String) → Except ProcErr (State × Totals)
  | [] => .ok acc
  | pair :: rest =>
      match evalStep cfg acc pair with
      | .error e => .error e
      | .ok acc' => evalLoop cfg acc' rest

/-- The numeric part of the `AsrEvaluationResults` dict.  (The dict's
`insertions` / `deletions` / `substitutions` entries are read off the
`State` that `evaluate` returns alongside.) -/
structure AsrEvaluationResults where
  sentence_count : Nat
  ref_token_count : Nat
  match_count : Nat
  error_count : Nat
  sent_error_count : Nat
  wer : ℚ
  wrr : ℚ
  ser : ℚ

/-- Transcribes `evaluate`: fold the line pairs, then derive WER / WRR
(guarded by `ref_token_count > 0`) and SER (guarded by `line_count > 0`),
defaulting each to `0.0` on a zero denominator. -/
def evaluate (cfg : Config) (st0 : State) (lines : List (String × String)) :
    Except ProcErr (AsrEvaluationResults × State) :=
  match evalLoop cfg (st0, initTotals) lines with
  | .error e => .error e
  | .ok (st, t) =>
      let wrr : ℚ :=
        if 0 < t.ref_token_count then (t.match_count : ℚ) / (t.ref_token_count : ℚ)
        else 0
      let wer : ℚ :=
        if 0 < t.ref_token_count then (t.error_count : ℚ) / (t.ref_token_count : ℚ)
        else 0
      let ser : ℚ :=
        if 0 < t.line_count then (t.sent_error_count : ℚ) / (t.line_count : ℚ)
        else 0
      .ok ({ sentence_count := t.line_count
             ref_token_count := t.ref_token_count
             match_count := t.match_count
             error_count := t.error_count
             sent_error_count := t.sent_error_count
             wer := wer, wrr := wrr, ser := ser }, st)

/-- Transcribes `mean`: `float(sum(seq)) / len(seq)` when nonempty, the
`float("nan")` sentinel otherwise. -/
def mean (seq : List XRat) : XRat :=
  if 0 < seq.length then (xsum seq).divNat seq.length else .nan

/-- Order key of one report row `(length, avg_wer)`: Python's sort key
`(x[1], x[0])` compared lexicographically.  `fin`/`inf` are ordered as the
floats they model; `nan` (whose float comparisons are vacuous, so Python's
sort order would be arbitrary — it never occurs here, every bin list is
nonempty) is placed at the bottom. -/
def XRat.key : XRat → WithBot (WithTop ℚ)
  | .nan => ⊥
  | .inf => (some ⊤ : WithBot (WithTop ℚ))
  | .fin q => (some (some q) : WithBot (WithTop ℚ))

/-- Lexicographic row order by `(avg_wer, length)`. -/
def rowLe (p q : Nat × XRat) : Prop :=
  toLex (XRat.key p.2, p.1) ≤ toLex (XRat.key q.2, q.1)

instance : DecidableRel rowLe := fun p q =>
  inferInstanceAs (Decidable (toLex (XRat.key p.2, p.1) ≤ toLex (XRat.key q.2, q.1)))

instance : IsTotal (Nat × XRat) rowLe :=
  ⟨fun a b => le_total (toLex (XRat.key a.2, a.1)) (toLex (XRat.key b.2, b.1))⟩

instance : IsTrans (Nat × XRat) rowLe :=
  ⟨fun _ _ _ h1 h2 => le_trans h1 h2⟩

/-- Transcribes the data side of `print_wer_vs_length`: build
`avg_wers = {length: mean(wers)}` and sort its items by
`(avg_wer, length)` ascending; each returned row `(length, avg_wer)` is
then printed in order. -/
def print_wer_vs_length_rows (bins : Bins) : List (Nat × XRat) :=
  let avg_wers := bins.map (fun p => (p.1, mean p.2))
  List.insertionSort rowLe avg_wers

/-- Invariants of the running totals: matches never exceed reference
tokens, and errored sentences never exceed counted sentences. -/
def TotalsInv (t : Totals) : Prop :=
  t.match_count ≤ t.ref_token_count ∧ t.sent_error_count ≤ t.line_count

/-- Claim-side contribution of one opcode to `insertion_table[w]`: the
number of occurrences of `w` in the hypothesis range of an `insert` op. -/
def insContrib (seq2 : List String) (w : String) (op : Opcode) : Nat :=
  if op.tag = Tag.insert then (listSlice seq2 op.j1 op.j2).count w else 0

/-- Claim-side contribution of one opcode to `deletion_table[w]`: the
number of occurrences of `w` in the reference range of a `delete` op. -/
def delContrib (seq1 : List String) (w : String) (op : Opcode) : Nat :=
  if op.tag = Tag.delete then (listSlice seq1 op.i1 op.i2).count w else 0

/-- Claim-side contribution of one opcode to `substitution_table[(w1, w2)]`:
occurrences of `w1` in the reference range times occurrences of `w2` in the
hypothesis range of a `replace` op (the m×n cross product). -/
def subContrib (seq1 seq2 : List String) (p : String × String) (op : Opcode) : Nat :=
  if op.tag = Tag.replace then
    (listSlice seq1 op.i1 op.i2).count p.1 * (listSlice seq2 op.j1 op.j2).count p.2
  else 0

/-- Well-formed opcode ranges over sequences of lengths `n` (reference)
and `m` (hypothesis). -/
def opWF (n m : Nat) (op : Opcode) : Prop :=
  op.i1 ≤ op.i2 ∧ op.i2 ≤ n ∧ op.j1 ≤ op.j2 ∧ op.j2 ≤ m

instance (n m : Nat) (op : Opcode) : Decidable (opWF n m op) := by
  unfold opWF
  exact inferInstance

/-- Projection: the WER of a finished run. -/
def werOf : Except ProcErr (AsrEvaluationResults × State) → Option ℚ
  | .ok (res, _) => some res.wer
  | .error _ => none

/-- Projection: the reference token count of a finished run. -/
def refTokensOf : Except ProcErr (AsrEvaluationResults × State) → Option Nat
  | .ok (res, _) => some res.ref_token_count
  | .error _ => none

/-- Projection: the sentence count of a finished run. -/
def sentenceCountOf : Except ProcErr (AsrEvaluationResults × State) → Option Nat
  | .ok (res, _) => some res.sentence_count
  | .error _ => none

/-- Projection: the `wer_bins` table after one processed line. -/
def binsOfProc : Except ProcErr (State × Bool × Nat × Nat × Nat) → Option Bins
  | .ok (st, _, _, _, _) => some st.wer_bins
  | .error _ => none

/-- Configuration with every flag off. -/
def cfgPlain : Config := ⟨false, false, false, false, false, false⟩

/-- Configuration with only `remove_empty_refs` set. -/
def cfgER : Config := ⟨false, true, false, false, false, false⟩

/-- Configuration with only head-ID mode set. -/
def cfgHead : Config := ⟨false, false, true, false, false, false⟩

/-- Configuration with only confusion tracking set. -/
def cfgConf : Config := ⟨false, false, false, false, true, false⟩

/-- Configuration with head-ID mode and `remove_empty_refs` both set. -/
def cfgHeadER : Config := ⟨false, true, true, false, false, false⟩

/-- The all-zero results record, as returned for an empty input. -/
def resEmpty : AsrEvaluationResults := ⟨0, 0, 0, 0, 0, 0, 0, 0⟩

/-- A small concrete aligner output: one 2-for-3 replace. -/
def smDemo : SequenceMatcher := ⟨[⟨Tag.replace, 0, 2, 0, 3⟩], 0, []⟩

/-- Small concrete length bins for exercising the report. -/
def demoBins : Bins := [(2, [XRat.fin 1]), (1, [XRat.fin 0])]

/-- Results of the single-line run ref `"a"`, hyp `"a b b"`. -/
def resOneLine : AsrEvaluationResults :=
  ⟨1, 1, 1, 2, 1, ((2 : Nat) : ℚ) / ((1 : Nat) : ℚ),
   ((1 : Nat) : ℚ) / ((1 : Nat) : ℚ), ((1 : Nat) : ℚ) / ((1 : Nat) : ℚ)⟩

/-- Claim-side restatement of the error count, written from the spec's
words: the sum, over all ops tagged insert, delete, or replace, of
`max(|ref_range|, |hyp_range|)`. -/
def specErrorSum (ops : List Opcode) : Nat :=
  ((ops.filter (fun op =>
      op.tag == Tag.insert || op.tag == Tag.delete || op.tag == Tag.replace)).map
    (fun op => max (op.i2 - op.i1) (op.j2 - op.j1))).sum

/-- Total number of reference tokens covered by all opcodes of an
alignment (the spec's partition invariant sums these to the full
reference length). -/
def refSpan (ops : List Opcode) : Nat :=
  (ops.map (fun op => op.i2 - op.i1)).sum

theorem foldl_add_eq_sum (l : List Nat) (n : Nat) :
    l.foldl (· + ·) n = n + l.sum := by
  induction l generalizing n with
  | nil => simp
  | cons a l ih => simp only [List.foldl_cons, ih, List.sum_cons]; omega

theorem get_error_count_eq_specErrorSum (sm : SequenceMatcher) :
    get_error_count sm = specErrorSum sm.opcodes := by
  unfold get_error_count specErrorSum
  rw [foldl_add_eq_sum]
  simp only [Nat.zero_add]
  congr 2
  apply List.filter_congr
  intro op _
  rcases op with ⟨tag, i1, i2, j1, j2⟩
  cases tag <;> rfl

theorem blocks_sum_eq (ops : List Opcode) :
    ((ops.filterMap (fun op =>
        if op.tag = Tag.equal then some (op.i1, op.j1, op.i2 - op.i1) else none)).map
      (fun x => x.2.2)).sum = countEqualTokens ops := by
  induction ops with
  | nil => rfl
  | cons op ops ih =>
      rcases op with ⟨tag, i1, i2, j1, j2⟩
      cases tag <;>
        simp [List.filterMap_cons, countEqualTokens, List.filter_cons] at ih ⊢ <;>
        omega

theorem get_match_count_make (a b : List String) :
    get_match_count (SequenceMatcher.make a b) =
      some (countEqualTokens (alignment a b)) := by
  unfold get_match_count SequenceMatcher.make
  simp only [foldl_add_eq_sum, blocks_sum_eq, Nat.zero_add]
  simp

theorem refSpan_cons (op : Opcode) (ops : List Opcode) :
    refSpan (op :: ops) = (op.i2 - op.i1) + refSpan ops := by
  simp [refSpan]

theorem alignAux_refSpan :
    ∀ (fuel i j : Nat) (a b : List String), a.length + b.length ≤ fuel →
      refSpan (alignAux fuel i j a b).2 = a.length := by
  intro fuel
  induction fuel with
  | zero =>
      intro i j a b h
      cases a with
      | nil => simp [alignAux, refSpan]
      | cons x xs => simp at h
  | succ fuel ih =>
      intro i j a b h
      match a, b with
      | [], [] => simp [alignAux, refSpan]
      | [], b :: bs =>
          simp only [alignAux, refSpan_cons]
          rw [ih i (j + 1) [] bs (by simp at h ⊢; omega)]
          simp
      | a :: as, [] =>
          simp only [alignAux, refSpan_cons]
          rw [ih (i + 1) j as [] (by simp at h ⊢; omega)]
          simp; omega
      | a :: as, b :: bs =>
          simp only [alignAux]
          split
          · simp only [refSpan_cons]
            rw [ih (i + 1) (j + 1) as bs (by simp at h ⊢; omega)]
            simp; omega
          · split
            · simp only [refSpan_cons]
              rw [ih (i + 1) (j + 1) as bs (by simp at h ⊢; omega)]
              simp; omega
            · split
              · simp only [refSpan_cons]
                rw [ih (i + 1) j as (b :: bs) (by simp at h ⊢; omega)]
                simp; omega
              · simp only [refSpan_cons]
                rw [ih i (j + 1) (a :: as) bs (by simp at h ⊢; omega)]
                simp

theorem alignment_refSpan (a b : List String) :
    refSpan (alignment a b) = a.length :=
  alignAux_refSpan (a.length + b.length) 0 0 a b (Nat.le_refl _)

theorem countEqual_le_refSpan (ops : List Opcode) :
    countEqualTokens ops ≤ refSpan ops := by
  induction ops with
  | nil => simp [countEqualTokens, refSpan]
  | cons op ops ih =>
      rcases op with ⟨tag, i1, i2, j1, j2⟩
      cases tag <;>
        simp [countEqualTokens, refSpan, List.filter_cons] at ih ⊢ <;> omega

/-- Anatomy of a successfully processed line: what the returned numbers
are, in terms of the stripped sequences. -/
theorem process_ok_true (cfg : Config) (st : State) (rl hl : String)
    (st' : State) (l m e : Nat)
    (h : process_line_pair cfg st rl hl = .ok (st', true, l, m, e)) :
    ∃ ref hyp, strippedSeqs cfg rl hl = .ok (ref, hyp) ∧
      l = ref.length ∧ m = countEqualTokens (alignment ref hyp) ∧
      e = get_error_count (SequenceMatcher.make ref hyp) ∧
      st' = postState cfg st ref hyp := by
  unfold process_line_pair at h
  cases hs : strippedSeqs cfg rl hl with
  | error e' => rw [hs] at h; exact absurd h (by simp)
  | ok p =>
      rcases p with ⟨ref, hyp⟩
      rw [hs] at h
      dsimp only at h
      refine ⟨ref, hyp, rfl, ?_⟩
      by_cases hre : (cfg.remove_empty_refs && ref.isEmpty) = true
      · rw [if_pos hre] at h
        simp at h
      · rw [if_neg hre] at h
        simp only [get_match_count_make] at h
        simp only [Except.ok.injEq, Prod.mk.injEq] at h
        exact ⟨h.2.2.1.symm, h.2.2.2.1.symm, h.2.2.2.2.symm, h.1.symm⟩

theorem process_match_le (cfg : Config) (st : State) (rl hl : String)
    (st' : State) (l m e : Nat)
    (h : process_line_pair cfg st rl hl = .ok (st', true, l, m, e)) :
    m ≤ l := by
  obtain ⟨ref, hyp, -, hl', hm, -, -⟩ := process_ok_true cfg st rl hl st' l m e h
  subst hl' hm
  calc countEqualTokens (alignment ref hyp)
      ≤ refSpan (alignment ref hyp) := countEqual_le_refSpan _
    _ = ref.length := alignment_refSpan ref hyp

/-- A line whose stripped reference is empty is skipped under
`remove_empty_refs`: result `processed=false`, state untouched. -/
theorem process_skip (cfg : Config) (st : State) (rl hl : String)
    (ref hyp : List String) (hre : cfg.remove_empty_refs = true)
    (hs : strippedSeqs cfg rl hl = .ok (ref, hyp)) (hempty : ref = []) :
    process_line_pair cfg st rl hl = .ok (st, false, 0, 0, 0) := by
  unfold process_line_pair
  rw [hs]
  dsimp only
  rw [if_pos (by simp [hre, hempty])]

/-- A skipped line is invisible to the `evaluate` loop. -/
theorem evalLoop_skip (cfg : Config) (st : State) (t : Totals) (rl hl : String)
    (rest : List (String × String))
    (h : process_line_pair cfg st rl hl = .ok (st, false, 0, 0, 0)) :
    evalLoop cfg (st, t) ((rl, hl) :: rest) = evalLoop cfg (st, t) rest := by
  simp [evalLoop, evalStep, h]

theorem evalStep_inv (cfg : Config) (acc : State × Totals)
    (pair : String × String) (acc' : State × Totals)
    (h : evalStep cfg acc pair = .ok acc') (hI : TotalsInv acc.2) :
    TotalsInv acc'.2 := by
  unfold evalStep at h
  cases hp : process_line_pair cfg acc.1 pair.1 pair.2 with
  | error e => rw [hp] at h; exact absurd h (by simp)
  | ok r =>
      rcases r with ⟨st', p, l, m, e⟩
      rw [hp] at h
      dsimp only at h
      cases p with
      | false =>
          rw [if_neg (by simp)] at h
          simp only [Except.ok.injEq] at h
          subst h
          exact hI
      | true =>
          have hml : m ≤ l := process_match_le cfg acc.1 pair.1 pair.2 st' l m e hp
          rw [if_pos (by trivial)] at h
          simp only [Except.ok.injEq] at h
          subst h
          refine ⟨Nat.add_le_add hI.1 hml, ?_⟩
          dsimp only
          split
          · exact Nat.add_le_add hI.2 (Nat.le_refl 1)
          · exact Nat.le_succ_of_le hI.2

theorem evalLoop_inv (cfg : Config) :
    ∀ (lines : List (String × String)) (acc : State × Totals)
      (st' : State) (t' : Totals),
      TotalsInv acc.2 → evalLoop cfg acc lines = .ok (st', t') →
      TotalsInv t' := by
  intro lines
  induction lines with
  | nil =>
      intro acc st' t' hI h
      simp only [evalLoop, Except.ok.injEq] at h
      rw [h] at hI
      exact hI
  | cons pair rest ih =>
      intro acc st' t' hI h
      unfold evalLoop at h
      cases hstep : evalStep cfg acc pair with
      | error e => rw [hstep] at h; exact absurd h (by simp)
      | ok acc' =>
          rw [hstep] at h
          exact ih acc' st' t' (evalStep_inv cfg acc pair acc' hstep hI) h

/-- Shape of the rates in a finished `evaluate` run, in terms of the
totals the result itself carries. -/
theorem evaluate_ok_rates (cfg : Config) (st0 : State)
    (lines : List (String × String)) (res : AsrEvaluationResults) (stf : State)
    (h : evaluate cfg st0 lines = .ok (res, stf)) :
    (res.wer = if 0 < res.ref_token_count then
        (res.error_count : ℚ) / (res.ref_token_count : ℚ) else 0) ∧
    (res.wrr = if 0 < res.ref_token_count then
        (res.match_count : ℚ) / (res.ref_token_count : ℚ) else 0) ∧
    (res.ser = if 0 < res.sentence_count then
        (res.sent_error_count : ℚ) / (res.sentence_count : ℚ) else 0) := by
  unfold evaluate at h
  cases hL : evalLoop cfg (st0, initTotals) lines with
  | error e => rw [hL] at h; exact absurd h (by simp)
  | ok p =>
      rcases p with ⟨st, t⟩
      rw [hL] at h
      simp only [Except.ok.injEq, Prod.mk.injEq] at h
      rw [← h.1]
      exact ⟨rfl, rfl, rfl⟩

theorem evaluate_ok_inv (cfg : Config) (st0 : State)
    (lines : List (String × String)) (res : AsrEvaluationResults) (stf : State)
    (h : evaluate cfg st0 lines = .ok (res, stf)) :
    res.match_count ≤ res.ref_token_count ∧
    res.sent_error_count ≤ res.sentence_count := by
  unfold evaluate at h
  cases hL : evalLoop cfg (st0, initTotals) lines with
  | error e => rw [hL] at h; exact absurd h (by simp)
  | ok p =>
      rcases p with ⟨st, t⟩
      rw [hL] at h
      have hI : TotalsInv t :=
        evalLoop_inv cfg lines (st0, initTotals) st t
          ⟨Nat.le_refl 0, Nat.le_refl 0⟩ hL
      simp only [Except.ok.injEq, Prod.mk.injEq] at h
      rw [← h.1]
      exact hI

theorem bumpTable_foldl_count (ws : List String) (t : String → Nat) (x : String) :
    (ws.foldl bumpTable t) x = t x + ws.count x := by
  induction ws generalizing t with
  | nil => simp
  | cons w ws ih =>
      simp only [List.foldl_cons, ih]
      unfold bumpTable
      by_cases hx : x = w
      · subst hx; simp [List.count_cons]; omega
      · simp [List.count_cons, hx]

theorem bumpPair_foldl_inner (w1 : String) (l2 : List String)
    (tab : String × String → Nat) (p : String × String) :
    (l2.foldl (fun tab w2 => bumpPair tab (w1, w2)) tab) p
      = tab p + (if p.1 = w1 then l2.count p.2 else 0) := by
  induction l2 generalizing tab with
  | nil => simp
  | cons w2 l2 ih =>
      simp only [List.foldl_cons, ih]
      unfold bumpPair
      rcases p with ⟨pa, pb⟩
      by_cases h1 : pa = w1
      · subst h1
        by_cases h2 : pb = w2
        · subst h2; simp [List.count_cons]; omega
        · simp [List.count_cons, h2, Prod.ext_iff]
      · simp [h1, Prod.ext_iff]

theorem bumpPair_foldl_count (l1 l2 : List String)
    (tab : String × String → Nat) (p : String × String) :
    (l1.foldl (fun tab w1 => l2.foldl (fun tab w2 =>
        bumpPair tab (w1, w2)) tab) tab) p
      = tab p + l1.count p.1 * l2.count p.2 := by
  induction l1 generalizing tab with
  | nil => simp
  | cons w1 l1 ih =>
      simp only [List.foldl_cons, ih, bumpPair_foldl_inner]
      by_cases h1 : p.1 = w1
      · simp only [List.count_cons, h1, if_pos rfl, beq_self_eq_true, if_true]
        ring
      · simp [List.count_cons, h1]

theorem range_getD_eq_slice (l : List String) :
    ∀ (n i : Nat), i + n ≤ l.length →
      (List.range' i n).map (fun k => l.getD k "") = (l.drop i).take n := by
  intro n
  induction n with
  | zero => intro i _; simp
  | succ n ih =>
      intro i h
      rw [List.range'_succ]
      simp only [List.map_cons]
      rw [ih (i + 1) (by omega)]
      have hi : i < l.length := by omega
      rw [List.getD_eq_getElem l "" hi]
      rw [List.drop_eq_getElem_cons hi, List.take_succ_cons]

theorem confStep_insertion (seq1 seq2 : List String) (st : State) (op : Opcode)
    (hwf : opWF seq1.length seq2.length op) (w : String) :
    (confStep seq1 seq2 st op).insertion_table w
      = st.insertion_table w + insContrib seq2 w op := by
  rcases op with ⟨tag, i1, i2, j1, j2⟩
  have h3 : j1 ≤ j2 := hwf.2.2.1
  have h4 : j2 ≤ seq2.length := hwf.2.2.2
  cases tag with
  | insert =>
      simp only [confStep, insContrib, if_pos rfl]
      rw [bumpTable_foldl_count, range_getD_eq_slice seq2 (j2 - j1) j1 (by omega)]
      rfl
  | equal => simp [confStep, insContrib]
  | delete => simp [confStep, insContrib]
  | replace => simp [confStep, insContrib]

theorem confStep_deletion (seq1 seq2 : List String) (st : State) (op : Opcode)
    (hwf : opWF seq1.length seq2.length op) (w : String) :
    (confStep seq1 seq2 st op).deletion_table w
      = st.deletion_table w + delContrib seq1 w op := by
  rcases op with ⟨tag, i1, i2, j1, j2⟩
  have h1 : i1 ≤ i2 := hwf.1
  have h2 : i2 ≤ seq1.length := hwf.2.1
  cases tag with
  | delete =>
      simp only [confStep, delContrib, if_pos rfl]
      rw [bumpTable_foldl_count, range_getD_eq_slice seq1 (i2 - i1) i1 (by omega)]
      rfl
  | equal => simp [confStep, delContrib]
  | insert => simp [confStep, delContrib]
  | replace => simp [confStep, delContrib]

theorem confStep_substitution (seq1 seq2 : List String) (st : State)
    (op : Opcode) (p : String × String) :
    (confStep seq1 seq2 st op).substitution_table p
      = st.substitution_table p + subContrib seq1 seq2 p op := by
  rcases op with ⟨tag, i1, i2, j1, j2⟩
  cases tag with
  | replace =>
      simp only [confStep, subContrib, if_pos rfl]
      rw [bumpPair_foldl_count]
      simp
  | equal => simp [confStep, subContrib]
  | insert => simp [confStep, subContrib]
  | delete => simp [confStep, subContrib]

theorem confStep_preserves (seq1 seq2 : List String) (st : State) (op : Opcode) :
    (confStep seq1 seq2 st op).lengths = st.lengths ∧
    (confStep seq1 seq2 st op).error_rates = st.error_rates ∧
    (confStep seq1 seq2 st op).wer_bins = st.wer_bins := by
  rcases op with ⟨tag, i1, i2, j1, j2⟩
  cases tag <;> simp [confStep]

theorem track_foldl_insertion (seq1 seq2 : List String) :
    ∀ (ops : List Opcode) (st : State),
      (∀ op ∈ ops, opWF seq1.length seq2.length op) → ∀ w,
      (ops.foldl (confStep seq1 seq2) st).insertion_table w
        = st.insertion_table w + (ops.map (insContrib seq2 w)).sum := by
  intro ops
  induction ops with
  | nil => intro st _ w; simp
  | cons op ops ih =>
      intro st hwf w
      simp only [List.foldl_cons, List.map_cons, List.sum_cons]
      rw [ih _ (fun o ho => hwf o (List.mem_cons_of_mem _ ho)) w,
          confStep_insertion seq1 seq2 st op (hwf op (List.mem_cons_self _ _)) w]
      omega

theorem track_foldl_deletion (seq1 seq2 : List String) :
    ∀ (ops : List Opcode) (st : State),
      (∀ op ∈ ops, opWF seq1.length seq2.length op) → ∀ w,
      (ops.foldl (confStep seq1 seq2) st).deletion_table w
        = st.deletion_table w + (ops.map (delContrib seq1 w)).sum := by
  intro ops
  induction ops with
  | nil => intro st _ w; simp
  | cons op ops ih =>
      intro st hwf w
      simp only [List.foldl_cons, List.map_cons, List.sum_cons]
      rw [ih _ (fun o ho => hwf o (List.mem_cons_of_mem _ ho)) w,
          confStep_deletion seq1 seq2 st op (hwf op (List.mem_cons_self _ _)) w]
      omega

theorem track_foldl_substitution (seq1 seq2 : List String) :
    ∀ (ops : List Opcode) (st : State) (p : String × String),
      (ops.foldl (confStep seq1 seq2) st).substitution_table p
        = st.substitution_table p + (ops.map (subContrib seq1 seq2 p)).sum := by
  intro ops
  induction ops with
  | nil => intro st p; simp
  | cons op ops ih =>
      intro st p
      simp only [List.foldl_cons, List.map_cons, List.sum_cons]
      rw [ih _ p, confStep_substitution seq1 seq2 st op p]
      omega

theorem track_confusions_preserves (sm : SequenceMatcher)
    (seq1 seq2 : List String) (st : State) :
    (track_confusions sm seq1 seq2 st).lengths = st.lengths ∧
    (track_confusions sm seq1 seq2 st).error_rates = st.error_rates ∧
    (track_confusions sm seq1 seq2 st).wer_bins = st.wer_bins := by
  unfold track_confusions
  generalize sm.opcodes = ops
  induction ops generalizing st with
  | nil => exact ⟨rfl, rfl, rfl⟩
  | cons op ops ih =>
      simp only [List.foldl_cons]
      obtain ⟨e1, e2, e3⟩ := ih (confStep seq1 seq2 st op)
      obtain ⟨f1, f2, f3⟩ := confStep_preserves seq1 seq2 st op
      exact ⟨e1.trans f1, e2.trans f2, e3.trans f3⟩

/-- The `wer_bins` part of a counted line's state update. -/
theorem postState_wer_bins (cfg : Config) (st : State) (ref hyp : List String) :
    (postState cfg st ref hyp).wer_bins
      = binsAppend st.wer_bins ref.length
          (if 0 < ref.length then
            .fin ((get_error_count (SequenceMatcher.make ref hyp) : ℚ) / (ref.length : ℚ))
          else .inf) := by
  unfold postState
  dsimp only
  split
  · rw [(track_confusions_preserves _ _ _ _).2.2]
  · rfl

theorem postState_tables_off (cfg : Config) (st : State) (ref hyp : List String)
    (hc : cfg.confusions = false) :
    (postState cfg st ref hyp).insertion_table = st.insertion_table ∧
    (postState cfg st ref hyp).deletion_table = st.deletion_table ∧
    (postState cfg st ref hyp).substitution_table = st.substitution_table := by
  unfold postState
  rw [hc]
  exact ⟨rfl, rfl, rfl⟩

theorem postState_tables_on (cfg : Config) (st : State) (ref hyp : List String)
    (hc : cfg.confusions = true) :
    (postState cfg st ref hyp).insertion_table
      = (track_confusions (SequenceMatcher.make ref hyp) ref hyp st).insertion_table ∧
    (postState cfg st ref hyp).deletion_table
      = (track_confusions (SequenceMatcher.make ref hyp) ref hyp st).deletion_table ∧
    (postState cfg st ref hyp).substitution_table
      = (track_confusions (SequenceMatcher.make ref hyp) ref hyp st).substitution_table := by
  unfold postState
  rw [hc]
  exact ⟨rfl, rfl, rfl⟩

/-- Claim C1: for every processed line pair, the per-line error count is
the sum over the alignment's insert/delete/replace ops of
`max(|ref_range|, |hyp_range|)`; in particular a replace op spanning `m`
reference and `n` hypothesis tokens contributes exactly `max(m, n)`. -/
theorem claim_C1 :
    (∀ (cfg : Config) (st : State) (rl hl : String) (ref hyp : List String)
       (st' : State) (l m e : Nat),
       strippedSeqs cfg rl hl = .ok (ref, hyp) →
       process_line_pair cfg st rl hl = .ok (st', true, l, m, e) →
       e = specErrorSum (alignment ref hyp)) ∧
    (∀ (ops : List Opcode) (mr : Nat) (mb : List (Nat × Nat × Nat)) (op : Opcode),
       op.tag = Tag.replace →
       get_error_count ⟨op :: ops, mr, mb⟩
         = max (op.i2 - op.i1) (op.j2 - op.j1) + get_error_count ⟨ops, mr, mb⟩) := by
  constructor
  · intro cfg st rl hl ref hyp st' l m e hs hp
    obtain ⟨ref', hyp', hs', -, -, he, -⟩ := process_ok_true cfg st rl hl st' l m e hp
    rw [hs] at hs'
    simp only [Except.ok.injEq, Prod.mk.injEq] at hs'
    obtain ⟨h1, h2⟩ := hs'
    subst h1
    subst h2
    rw [he, get_error_count_eq_specErrorSum]
    rfl
  · intro ops mr mb op htag
    unfold get_error_count
    dsimp only
    rw [List.filter_cons, if_pos (by rw [htag]; rfl), List.map_cons,
        foldl_add_eq_sum, foldl_add_eq_sum, List.sum_cons]
    omega

/-- Witness for C1 at ref `"a b"`, hyp `"a c"` (one 1-for-1 replace, one
error) and at a standalone 2-for-3 replace opcode. -/
theorem claim_C1_witness :
    (1 : Nat) = specErrorSum (alignment ["a", "b"] ["a", "c"]) ∧
    get_error_count ⟨[⟨Tag.replace, 0, 2, 0, 3⟩], 0, []⟩
      = max 2 3 + get_error_count ⟨[], 0, []⟩ := by
  constructor
  · exact claim_C1.1 cfgPlain initState "a b" "a c" ["a", "b"] ["a", "c"]
      (postState cfgPlain initState ["a", "b"] ["a", "c"]) 2 1 1 rfl rfl
  · exact claim_C1.2 [] 0 [] ⟨Tag.replace, 0, 2, 0, 3⟩ rfl

/-- Claim C2: finalizing metrics yields `wer = error_count/ref_token_count`
and `wrr = match_count/ref_token_count` when `ref_token_count > 0` and `0`
otherwise, and `ser = sent_error_count/sentence_count` when
`sentence_count > 0` and `0` otherwise; zero denominators produce the
defined value `0` instead of a division fault. -/
theorem claim_C2 (cfg : Config) (st0 : State) (lines : List (String × String))
    (res : AsrEvaluationResults) (stf : State)
    (h : evaluate cfg st0 lines = .ok (res, stf)) :
    (res.wer = if 0 < res.ref_token_count then
        (res.error_count : ℚ) / (res.ref_token_count : ℚ) else 0) ∧
    (res.wrr = if 0 < res.ref_token_count then
        (res.match_count : ℚ) / (res.ref_token_count : ℚ) else 0) ∧
    (res.ser = if 0 < res.sentence_count then
        (res.sent_error_count : ℚ) / (res.sentence_count : ℚ) else 0) ∧
    (res.ref_token_count = 0 → res.wer = 0 ∧ res.wrr = 0) ∧
    (res.sentence_count = 0 → res.ser = 0) := by
  obtain ⟨h1, h2, h3⟩ := evaluate_ok_rates cfg st0 lines res stf h
  refine ⟨h1, h2, h3, ?_, ?_⟩
  · intro hz
    rw [h1, h2, hz]
    simp
  · intro hz
    rw [h3, hz]
    simp

/-- Witness for C2 on the empty corpus (all denominators zero). -/
theorem claim_C2_witness :
    (resEmpty.wer = if 0 < resEmpty.ref_token_count then
        (resEmpty.error_count : ℚ) / (resEmpty.ref_token_count : ℚ) else 0) ∧
    (resEmpty.wrr = if 0 < resEmpty.ref_token_count then
        (resEmpty.match_count : ℚ) / (resEmpty.ref_token_count : ℚ) else 0) ∧
    (resEmpty.ser = if 0 < resEmpty.sentence_count then
        (resEmpty.sent_error_count : ℚ) / (resEmpty.sentence_count : ℚ) else 0) ∧
    (resEmpty.ref_token_count = 0 → resEmpty.wer = 0 ∧ resEmpty.wrr = 0) ∧
    (resEmpty.sentence_count = 0 → resEmpty.ser = 0) :=
  claim_C2 cfgPlain initState [] resEmpty initState rfl

/-- Claim C4: the sum of the aligner's matching-block sizes equals its
reported match count, so the `assert` in `get_match_count` never fires and
line processing never aborts with an assertion failure. -/
theorem claim_C4 :
    (∀ a b : List String,
       ((SequenceMatcher.make a b).matching_blocks.map (fun x => x.2.2)).sum
         = (SequenceMatcher.make a b).matchesReported ∧
       get_match_count (SequenceMatcher.make a b)
         = some ((SequenceMatcher.make a b).matchesReported)) ∧
    (∀ (cfg : Config) (st : State) (rl hl : String) (ref hyp : List String),
       strippedSeqs cfg rl hl = .ok (ref, hyp) →
       process_line_pair cfg st rl hl ≠ .error .assertFault) := by
  constructor
  · intro a b
    exact ⟨blocks_sum_eq (alignment a b), get_match_count_make a b⟩
  · intro cfg st rl hl ref hyp hs
    unfold process_line_pair
    rw [hs]
    dsimp only
    split
    · simp
    · simp [get_match_count_make]

/-- Witness for C4: a concrete line pair is processed without tripping the
match-count assertion. -/
theorem claim_C4_witness :
    process_line_pair cfgPlain initState "a b" "a c" ≠ .error .assertFault :=
  claim_C4.2 cfgPlain initState "a b" "a c" ["a", "b"] ["a", "c"] rfl

/-- Claim C5: with `remove_empty_refs` set, a line whose stripped reference
sequence is empty yields `processed=false` with the state untouched, and
the evaluation loop carries totals and state past it unchanged. -/
theorem claim_C5 :
    (∀ (cfg : Config) (st : State) (rl hl : String) (hyp : List String),
       cfg.remove_empty_refs = true →
       strippedSeqs cfg rl hl = .ok ([], hyp) →
       process_line_pair cfg st rl hl = .ok (st, false, 0, 0, 0)) ∧
    (∀ (cfg : Config) (st : State) (t : Totals) (rl hl : String)
       (rest : List (String × String)),
       process_line_pair cfg st rl hl = .ok (st, false, 0, 0, 0) →
       evalLoop cfg (st, t) ((rl, hl) :: rest) = evalLoop cfg (st, t) rest) :=
  ⟨fun cfg st rl hl hyp hre hs => process_skip cfg st rl hl [] hyp hre hs rfl,
   fun cfg st t rl hl rest h => evalLoop_skip cfg st t rl hl rest h⟩

/-- Witness for C5 on the spec's scenario ref `""`, hyp `"hello"`: skipped,
nothing accumulated, `sentence_count` stays `0`. -/
theorem claim_C5_witness :
    process_line_pair cfgER initState "" "hello" = .ok (initState, false, 0, 0, 0) ∧
    evalLoop cfgER (initState, initTotals) [("", "hello")]
      = evalLoop cfgER (initState, initTotals) [] ∧
    sentenceCountOf (evaluate cfgER initState [("", "hello")]) = some 0 := by
  have hskip := claim_C5.1 cfgER initState "" "hello" ["hello"] rfl rfl
  exact ⟨hskip, claim_C5.2 cfgER initState initTotals "" "hello" [] hskip, rfl⟩

/-- Claim C6: head (tail) ID mode strips the first (last) token from both
sequences; differing IDs are a fatal mismatch, and on the spec's scenario
the whole run aborts with the mismatch before any results exist. -/
theorem claim_C6 :
    (∀ (r h : String) (rs hs : List String),
       remove_head_id (r :: rs) (h :: hs)
         = if r = h then .ok (rs, hs) else .error .idMismatch) ∧
    (∀ (r h : String) (rs hs : List String),
       remove_tail_id (rs ++ [r]) (hs ++ [h])
         = if r = h then .ok (rs, hs) else .error .idMismatch) ∧
    evaluate cfgHead initState [("U1 a b", "U2 a b")] = .error .idMismatch := by
  refine ⟨?_, ?_, rfl⟩
  · intro r h rs hs
    by_cases hrh : r = h <;> simp [remove_head_id, hrh]
  · intro r h rs hs
    by_cases hrh : r = h <;>
      simp [remove_tail_id, List.getLast?_concat, List.dropLast_concat, hrh]

/-- Claim C10: in an ID-extraction mode the ID token is read by unguarded
indexing before the empty-reference check, so an empty (tokenized)
reference or hypothesis line faults instead of returning
`processed=false`, whatever `remove_empty_refs` says. -/
theorem claim_C10 :
    (∀ (cfg : Config) (st : State) (rl hl : String),
       cfg.files_head_ids = true → tokenize rl = [] →
       process_line_pair cfg st rl hl = .error .indexFault) ∧
    (∀ (cfg : Config) (st : State) (rl hl : String) (r : String) (rs : List String),
       cfg.files_head_ids = true → tokenize rl = r :: rs → tokenize hl = [] →
       process_line_pair cfg st rl hl = .error .indexFault) ∧
    (∀ (cfg : Config) (st : State) (rl hl : String),
       cfg.files_head_ids = false → cfg.files_tail_ids = true → tokenize rl = [] →
       process_line_pair cfg st rl hl = .error .indexFault) ∧
    (∀ (cfg : Config) (st : State) (rl hl : String) (r : String) (rs : List String),
       cfg.files_head_ids = false → cfg.files_tail_ids = true →
       tokenize rl = rs ++ [r] → tokenize hl = [] →
       process_line_pair cfg st rl hl = .error .indexFault) := by
  refine ⟨?_, ?_, ?_, ?_⟩
  · intro cfg st rl hl hh ht
    simp [process_line_pair, strippedSeqs, hh, ht]
  · intro cfg st rl hl r rs hh ht hthyp
    simp [process_line_pair, strippedSeqs, remove_head_id, hh, ht, hthyp]
  · intro cfg st rl hl hh htl ht
    simp [process_line_pair, strippedSeqs, hh, htl, ht]
  · intro cfg st rl hl r rs hh htl ht hthyp
    simp [process_line_pair, strippedSeqs, remove_tail_id, hh, htl, ht, hthyp,
      List.getLast?_concat]

/-- Witness for C10: head-ID mode with `remove_empty_refs` enabled still
faults on an empty reference line instead of skipping it. -/
theorem claim_C10_witness :
    process_line_pair cfgHeadER initState "" "hello" = .error .indexFault :=
  claim_C10.1 cfgHeadER initState "" "hello" rfl rfl

/-- Claim C3 as stated is false for WER: on the run ref `"a"`,
hyp `"a b b"` the reference token count is positive (1) yet
`wer = 2/1 > 1` — insertions can outnumber reference tokens. -/
theorem claim_C3_counterexample :
    refTokensOf (evaluate cfgPlain initState [("a", "a b b")]) = some 1 ∧
    werOf (evaluate cfgPlain initState [("a", "a b b")])
      = some (((2 : Nat) : ℚ) / ((1 : Nat) : ℚ)) ∧
    ¬ (((2 : Nat) : ℚ) / ((1 : Nat) : ℚ) ≤ 1) :=
  ⟨rfl, rfl, by norm_num⟩

/-- Claim C3 amended: when the relevant denominators are positive, WRR and
SER lie in `[0, 1]`; WER is only guaranteed nonnegative (it can exceed 1
when insertions outnumber reference tokens). -/
theorem claim_C3_amended (cfg : Config) (st0 : State)
    (lines : List (String × String)) (res : AsrEvaluationResults) (stf : State)
    (h : evaluate cfg st0 lines = .ok (res, stf)) :
    0 ≤ res.wer ∧ 0 ≤ res.wrr ∧ 0 ≤ res.ser ∧
    (0 < res.ref_token_count → res.wrr ≤ 1) ∧
    (0 < res.sentence_count → res.ser ≤ 1) := by
  obtain ⟨h1, h2, h3⟩ := evaluate_ok_rates cfg st0 lines res stf h
  obtain ⟨hi1, hi2⟩ := evaluate_ok_inv cfg st0 lines res stf h
  refine ⟨?_, ?_, ?_, ?_, ?_⟩
  · rw [h1]
    split
    · positivity
    · exact le_refl 0
  · rw [h2]
    split
    · positivity
    · exact le_refl 0
  · rw [h3]
    split
    · positivity
    · exact le_refl 0
  · intro hpos
    rw [h2, if_pos hpos, div_le_one (by exact_mod_cast hpos)]
    exact_mod_cast hi1
  · intro hpos
    rw [h3, if_pos hpos, div_le_one (by exact_mod_cast hpos)]
    exact_mod_cast hi2

/-- Witness for the amended C3 on the run ref `"a"`, hyp `"a b b"` (both
denominators positive). -/
theorem claim_C3_witness :
    0 ≤ resOneLine.wer ∧ 0 ≤ resOneLine.wrr ∧ 0 ≤ resOneLine.ser ∧
    (0 < resOneLine.ref_token_count → resOneLine.wrr ≤ 1) ∧
    (0 < resOneLine.sentence_count → resOneLine.ser ≤ 1) :=
  claim_C3_amended cfgPlain initState [("a", "a b b")] resOneLine
    (postState cfgPlain initState ["a"] ["a", "b", "b"]) rfl

/-- Claim C7: with confusion tracking on, an alignment's ops update the
tables by: +1 to `insertion_table[w]` per occurrence of `w` in an insert
op's hypothesis range, +1 to `deletion_table[w]` per occurrence of `w` in a
delete op's reference range, and +1 to `substitution_table[(w1, w2)]` per
pair of the m×n cross product of a replace op's ranges; with tracking off
the tables are untouched. -/
theorem claim_C7 :
    (∀ (sm : SequenceMatcher) (seq1 seq2 : List String) (st : State),
       (∀ op ∈ sm.opcodes, opWF seq1.length seq2.length op) →
       (∀ w, (track_confusions sm seq1 seq2 st).insertion_table w
           = st.insertion_table w + (sm.opcodes.map (insContrib seq2 w)).sum) ∧
       (∀ w, (track_confusions sm seq1 seq2 st).deletion_table w
           = st.deletion_table w + (sm.opcodes.map (delContrib seq1 w)).sum) ∧
       (∀ p, (track_confusions sm seq1 seq2 st).substitution_table p
           = st.substitution_table p + (sm.opcodes.map (subContrib seq1 seq2 p)).sum)) ∧
    (∀ (cfg : Config) (st : State) (rl hl : String) (ref hyp : List String)
       (st' : State) (l m e : Nat),
       strippedSeqs cfg rl hl = .ok (ref, hyp) →
       process_line_pair cfg st rl hl = .ok (st', true, l, m, e) →
       (cfg.confusions = false →
          st'.insertion_table = st.insertion_table ∧
          st'.deletion_table = st.deletion_table ∧
          st'.substitution_table = st.substitution_table) ∧
       (cfg.confusions = true →
          st'.insertion_table
            = (track_confusions (SequenceMatcher.make ref hyp) ref hyp st).insertion_table ∧
          st'.deletion_table
            = (track_confusions (SequenceMatcher.make ref hyp) ref hyp st).deletion_table ∧
          st'.substitution_table
            = (track_confusions (SequenceMatcher.make ref hyp) ref hyp st).substitution_table)) := by
  constructor
  · intro sm seq1 seq2 st hwf
    exact ⟨track_foldl_insertion seq1 seq2 sm.opcodes st hwf,
           track_foldl_deletion seq1 seq2 sm.opcodes st hwf,
           fun p => track_foldl_substitution seq1 seq2 sm.opcodes st p⟩
  · intro cfg st rl hl ref hyp st' l m e hs hp
    obtain ⟨ref', hyp', hs', -, -, -, hst⟩ := process_ok_true cfg st rl hl st' l m e hp
    rw [hs] at hs'
    simp only [Except.ok.injEq, Prod.mk.injEq] at hs'
    obtain ⟨h1, h2⟩ := hs'
    subst h1
    subst h2
    subst hst
    exact ⟨postState_tables_off _ _ _ _, postState_tables_on _ _ _ _⟩

/-- Witness for C7: the 2-for-3 replace over ref `["a","b"]`,
hyp `["x","y","z"]`, and a processed line with tracking enabled. -/
theorem claim_C7_witness :
    ((track_confusions smDemo ["a", "b"] ["x", "y", "z"] initState).substitution_table ("a", "x")
       = initState.substitution_table ("a", "x")
         + (smDemo.opcodes.map (subContrib ["a", "b"] ["x", "y", "z"] ("a", "x"))).sum) ∧
    ((track_confusions smDemo ["a", "b"] ["x", "y", "z"] initState).insertion_table "x"
       = initState.insertion_table "x"
         + (smDemo.opcodes.map (insContrib ["x", "y", "z"] "x")).sum) ∧
    (postState cfgConf initState ["a", "b"] ["x", "y", "z"]).substitution_table
      = (track_confusions (SequenceMatcher.make ["a", "b"] ["x", "y", "z"])
          ["a", "b"] ["x", "y", "z"] initState).substitution_table := by
  have h1 := claim_C7.1 smDemo ["a", "b"] ["x", "y", "z"] initState (by decide)
  have h2 := claim_C7.2 cfgConf initState "a b" "x y z" ["a", "b"] ["x", "y", "z"]
    (postState cfgConf initState ["a", "b"] ["x", "y", "z"]) 2 0 3 rfl rfl
  exact ⟨h1.2.2 ("a", "x"), h1.1 "x", (h2.2 rfl).2.2⟩

/-- Claim C8 as stated is false: length-bin tracking is not gated by any
configuration — with the length-report flag off, a processed line still
appends to `wer_bins`. -/
theorem claim_C8_counterexample :
    cfgPlain.print_wer_vs_length = false ∧
    initState.wer_bins = [] ∧
    binsOfProc (process_line_pair cfgPlain initState "a" "b")
      = some [(1, [XRat.fin (((1 : Nat) : ℚ) / ((1 : Nat) : ℚ))])] :=
  ⟨rfl, rfl, rfl⟩

/-- Claim C8 amended: every processed line — regardless of configuration
(the `wer_vs_length` flag gates only report printing) — appends
`error_count / ref_length` if `ref_length > 0` else positive infinity to
`length_bins[ref_length]`. -/
theorem claim_C8_amended (cfg : Config) (st : State) (rl hl : String)
    (st' : State) (l m e : Nat)
    (hp : process_line_pair cfg st rl hl = .ok (st', true, l, m, e)) :
    st'.wer_bins = binsAppend st.wer_bins l
      (if 0 < l then XRat.fin ((e : ℚ) / (l : ℚ)) else XRat.inf) := by
  obtain ⟨ref', hyp', -, hl', -, he, hst⟩ := process_ok_true cfg st rl hl st' l m e hp
  subst hst
  subst hl'
  subst he
  exact postState_wer_bins cfg st ref' hyp'

/-- Witness for the amended C8 on the processed line ref `"a"`,
hyp `"b"`. -/
theorem claim_C8_witness :
    (postState cfgPlain initState ["a"] ["b"]).wer_bins
      = binsAppend initState.wer_bins 1
          (if 0 < (1 : Nat) then XRat.fin (((1 : Nat) : ℚ) / ((1 : Nat) : ℚ))
           else XRat.inf) :=
  claim_C8_amended cfgPlain initState "a" "b"
    (postState cfgPlain initState ["a"] ["b"]) 1 0 1 rfl

/-- Claim C9: the length-vs-error report takes, per recorded length, the
arithmetic mean of its error-rate list (`mean` of an empty list is the
not-a-number sentinel) and emits the rows sorted ascending by the pair
(mean error rate, length); stated for bins whose lists are nonempty, the
only kind the program ever builds. -/
theorem claim_C9 :
    mean [] = XRat.nan ∧
    ∀ bins : Bins, (∀ p ∈ bins, p.2 ≠ []) →
      List.Sorted rowLe (print_wer_vs_length_rows bins) ∧
      List.Perm (print_wer_vs_length_rows bins)
        (bins.map (fun p => (p.1, mean p.2))) := by
  refine ⟨rfl, fun bins _ => ⟨?_, ?_⟩⟩
  · exact List.sorted_insertionSort rowLe _
  · exact List.perm_insertionSort rowLe _

/-- Witness for C9 on two nonempty bins. -/
theorem claim_C9_witness :
    List.Sorted rowLe (print_wer_vs_length_rows demoBins) ∧
    List.Perm (print_wer_vs_length_rows demoBins)
      (demoBins.map (fun p => (p.1, mean p.2))) :=
  claim_C9.2 demoBins (by decide)

end AsrEval
